import Mathlib

/-!
Formal model of the quick-tab tab-management widget.

The definitions below are a shallow embedding of the TypeScript sources:
the data model from `src/types`, the simulated browser/storage backend from
`src/services/ChromeService.ts`, the live/bookmark merge from the
`useTabManager` hook, and the view projection / selection / command-mode
logic from the `App` components.  JavaScript arrays become `List`,
JS numbers used as ids become `Int` (ghost ids are negative by intent),
optional fields become `Option`, and JS 32-bit bitwise arithmetic is made
explicit with a `toInt32` truncation.  Strings are Lean `String`s; the
UTF-16 code units of the URLs involved coincide with their code points.
-/

namespace QuickTab

/-- Raw browser tab, ephemeral (src/types `ChromeTab`). -/
structure ChromeTab where
  id : Int
  title : String
  url : String
  favIconUrl : String
  active : Bool
  pinned : Bool
  audible : Bool
deriving DecidableEq, Repr

/-- Persistent per-URL metadata (src/types `TabMetadata`).
`savedTitle` / `savedFavIconUrl` are optional snapshot fields. -/
structure TabMetadata where
  tags : List String
  note : String
  savedTitle : Option String
  savedFavIconUrl : Option String
deriving DecidableEq, Repr

/-- Persistent bookmark entry (src/types `BookmarkItem`); the optional
`pinned?` field is materialised as a `Bool` (the code only ever reads it
through `|| false`). -/
structure BookmarkItem where
  url : String
  groupId : String
  addedAt : Int
  pinned : Bool
deriving DecidableEq, Repr

/-- Merged, view-facing tab (src/types `Tab`).  Fields that are optional in
the TS type but always produced by the merge (`note`, `isGroupPinned`) are
materialised; `chromeTabId` stays optional (it is `undefined` for ghosts). -/
structure Tab where
  id : Int
  chromeTabId : Option Int
  title : String
  url : String
  favIconUrl : String
  isActive : Bool
  isPinned : Bool
  pinnedAt : Option Int
  tags : List String
  note : String
  isBookmarked : Bool
  bookmarkGroupId : Option String
  isGroupPinned : Bool
deriving DecidableEq, Repr

/-- State owned by `ChromeService`: the ephemeral live-tab registry and the
persistent stores.  The JS object `metadata` (keyed by URL) is an
association list with unique keys. -/
structure ServiceState where
  liveTabs : List ChromeTab
  metadata : List (String × TabMetadata)
  bookmarks : List BookmarkItem
deriving DecidableEq, Repr

/-- The stored metadata record for a URL, when present. -/
def lookupMeta (st : ServiceState) (url : String) : Option TabMetadata :=
  (st.metadata.find? (fun kv => kv.1 == url)).map (fun kv => kv.2)

/-- `ChromeService.getMetadata`: the stored record, or the default
`{ tags: [], note: '' }`. -/
def getMetadata (st : ServiceState) (url : String) : TabMetadata :=
  (lookupMeta st url).getD { tags := [], note := "", savedTitle := none, savedFavIconUrl := none }

/-- JS object assignment `metadata[url] = v`: replace the entry if the key
exists, otherwise append it. -/
def setMeta (m : List (String × TabMetadata)) (url : String) (v : TabMetadata) :
    List (String × TabMetadata) :=
  if m.any (fun kv => kv.1 == url) then
    m.map (fun kv => if kv.1 == url then (kv.1, v) else kv)
  else m ++ [(url, v)]

/-- A `Partial<TabMetadata>`: exactly the fields present in the update
object override the previous record when spread. -/
structure MetaUpdate where
  tags : Option (List String) := none
  note : Option String := none
  savedTitle : Option String := none
  savedFavIconUrl : Option String := none

/-- `ChromeService.updateMetadata` (without the notify plumbing):
`metadata[url] = { ...current, ...extraSnapshots, ...updates }`, where
`extraSnapshots` overwrites `savedTitle` / `savedFavIconUrl` from the first
live tab whose url matches, when one exists. -/
def updateMetadata (st : ServiceState) (url : String) (updates : MetaUpdate) : ServiceState :=
  let current := getMetadata st url
  let tabSnapshot := st.liveTabs.find? (fun t => t.url == url)
  let afterSnap : TabMetadata :=
    match tabSnapshot with
    | some t => { current with savedTitle := some t.title, savedFavIconUrl := some t.favIconUrl }
    | none => current
  let merged : TabMetadata :=
    { tags := updates.tags.getD afterSnap.tags
      note := updates.note.getD afterSnap.note
      savedTitle := match updates.savedTitle with
        | some v => some v
        | none => afterSnap.savedTitle
      savedFavIconUrl := match updates.savedFavIconUrl with
        | some v => some v
        | none => afterSnap.savedFavIconUrl }
  { st with metadata := setMeta st.metadata url merged }

/-- `ChromeService.addTag`: append unless already included. -/
def addTag (st : ServiceState) (url tag : String) : ServiceState :=
  let meta := getMetadata st url
  if tag ∈ meta.tags then st
  else updateMetadata st url { tags := some (meta.tags ++ [tag]) }

/-- `ChromeService.removeTag`: filter the tag out. -/
def removeTag (st : ServiceState) (url tag : String) : ServiceState :=
  let meta := getMetadata st url
  updateMetadata st url { tags := some (meta.tags.filter (fun t => t ≠ tag)) }

/-- `ChromeService.renameTag`: pointwise replacement of `oldTag` by
`newTag` (note: no collision check). -/
def renameTag (st : ServiceState) (url oldTag newTag : String) : ServiceState :=
  let meta := getMetadata st url
  updateMetadata st url { tags := some (meta.tags.map (fun t => if t == oldTag then newTag else t)) }

/-- JavaScript `ToInt32`: wrap an integer into `[-2^31, 2^31)`, as the
`<<` and `&` operators do. -/
def toInt32 (n : Int) : Int := (n + 2 ^ 31) % 2 ^ 32 - 2 ^ 31

/-- One reduction step of the ghost-id hash in `getAllBookmarkedTabs`:
`a = ((a << 5) - a) + charCode; return a & a`. -/
def hashStep (a : Int) (c : Nat) : Int := toInt32 (toInt32 (a * 32) - a + (c : Int))

/-- `url.split('').reduce((a, b) => { a = ((a << 5) - a) + b.charCodeAt(0); return a & a }, 0)`. -/
def jsUrlHash (url : String) : Int :=
  url.toList.foldl (fun a ch => hashStep a ch.toNat) 0

/-- The synthesized ghost id: `-1 * hash(url)`. -/
def pseudoId (url : String) : Int := -1 * jsUrlHash url

/-- JS `a || b` on an optional string: `undefined` and `''` are falsy. -/
def jsOrElse (a : Option String) (b : String) : String :=
  match a with
  | some s => if s = "" then b else s
  | none => b

/-- `useTabManager.getAllBookmarkedTabs`: one merged `Tab` per bookmark,
live-backed when a live tab with the same url exists, otherwise a ghost. -/
def getAllBookmarkedTabs (st : ServiceState) : List Tab :=
  st.bookmarks.map (fun b =>
    match st.liveTabs.find? (fun t => t.url == b.url) with
    | some liveTab =>
        { id := liveTab.id
          chromeTabId := some liveTab.id
          title := liveTab.title
          url := liveTab.url
          favIconUrl := liveTab.favIconUrl
          isActive := liveTab.active
          isPinned := liveTab.pinned
          pinnedAt := none
          tags := (getMetadata st b.url).tags
          note := (getMetadata st b.url).note
          isBookmarked := true
          bookmarkGroupId := some b.groupId
          isGroupPinned := b.pinned }
    | none =>
        { id := pseudoId b.url
          chromeTabId := none
          title := jsOrElse (getMetadata st b.url).savedTitle b.url
          url := b.url
          favIconUrl := jsOrElse (getMetadata st b.url).savedFavIconUrl ""
          isActive := false
          isPinned := false
          pinnedAt := none
          tags := (getMetadata st b.url).tags
          note := (getMetadata st b.url).note
          isBookmarked := true
          bookmarkGroupId := some b.groupId
          isGroupPinned := b.pinned })

/-- The three input modes of the search box (src/types `InputMode`). -/
inductive InputMode
  | SEARCH
  | COMMAND_SELECT
  | COMMAND_ACTIVE
deriving DecidableEq, Repr

/-- The three view modes (src/types `ViewMode`). -/
inductive ViewMode
  | LIST
  | GROUPS
  | BOOKMARKS
deriving DecidableEq, Repr

/-- Slash commands (src/types `CommandType`). -/
inductive CommandType
  | MARK
  | CLOSE
  | MUTE
deriving DecidableEq, Repr

/-- A palette entry (src/types `CommandDefinition`; the React icon node is
presentation-only and omitted). -/
structure CommandDefinition where
  id : CommandType
  trigger : String
  label : String
  description : String
deriving DecidableEq, Repr

/-- JS `toLowerCase`, as the code-unit sequence it produces (a Lean
`String` is its list of code points, lowered pointwise). -/
def jsToLower (s : String) : List Char := s.toList.map Char.toLower

/-- JS `s.includes(sub)`: `sub` occurs contiguously in `s`. -/
def jsIncludes (s sub : List Char) : Bool := decide (sub <:+: s)

/-- The per-tab predicate of the query filter:
case-insensitive substring match against title, url, or any tag. -/
def queryMatches (lowerQ : List Char) (t : Tab) : Bool :=
  jsIncludes (jsToLower t.title) lowerQ || jsIncludes (jsToLower t.url) lowerQ ||
    t.tags.any (fun tag => jsIncludes (jsToLower tag) lowerQ)

/-- GROUPS-mode comparator: domain, then pinned-first, then title.
`getDomain` (URL hostname parsing) and `lc` (`localeCompare`) are the
external string collaborators, passed as parameters. -/
def groupsCmp (getDomain : String → String) (lc : String → String → Int) (a b : Tab) : Int :=
  let domainCompare := lc (getDomain a.url) (getDomain b.url)
  if domainCompare ≠ 0 then domainCompare
  else if a.isPinned ≠ b.isPinned then (if a.isPinned then -1 else 1)
  else lc a.title b.title

/-- BOOKMARKS-mode comparator: group id, then group-pinned-first, then title. -/
def bookmarksCmp (lc : String → String → Int) (a b : Tab) : Int :=
  let groupCompare := lc (a.bookmarkGroupId.getD "") (b.bookmarkGroupId.getD "")
  if groupCompare ≠ 0 then groupCompare
  else if a.isGroupPinned ≠ b.isGroupPinned then (if a.isGroupPinned then -1 else 1)
  else lc a.title b.title

/-- LIST-mode comparator: pinned before unpinned, ties keep order. -/
def listCmp (a b : Tab) : Int :=
  if a.isPinned && !b.isPinned then -1
  else if !a.isPinned && b.isPinned then 1
  else 0

/-- The `filteredTabs` derivation of the merged App: MARK-command
restriction, else command-select passthrough, else non-empty-query
filtering; then the view-mode sort (JS `Array.prototype.sort` is stable,
modelled by a stable merge sort on the comparator's `≤ 0` relation). -/
def filteredTabs (getDomain : String → String) (lc : String → String → Int)
    (sourceTabs : List Tab) (query : String) (inputMode : InputMode)
    (activeCommand : Option CommandDefinition) (viewMode : ViewMode) : List Tab :=
  if inputMode = InputMode.COMMAND_ACTIVE ∧
      activeCommand.map (fun c => c.id) = some CommandType.MARK then
    sourceTabs.filter (fun t => t.isActive)
  else
    let result :=
      if inputMode = InputMode.COMMAND_SELECT then sourceTabs
      else if query ≠ "" then
        let lowerQ := jsToLower query
        sourceTabs.filter (fun t => queryMatches lowerQ t)
      else sourceTabs
    match viewMode with
    | ViewMode.GROUPS =>
        result.mergeSort (fun a b => decide (groupsCmp getDomain lc a b ≤ 0))
    | ViewMode.BOOKMARKS =>
        result.mergeSort (fun a b => decide (bookmarksCmp lc a b ≤ 0))
    | ViewMode.LIST =>
        result.mergeSort (fun a b => decide (listCmp a b ≤ 0))

/-- The selection cursor's state: `selectedTabIndex` may be `-1`, and
`targetTabIdToSelect` is the pending target set by mutations. -/
structure SelectionState where
  selectedTabIndex : Int
  targetTabIdToSelect : Option Int
deriving DecidableEq, Repr

/-- The selection-index reconciliation effect: pending target first
(found: jump to it; always: clear it), else view-mode change resets to
`-1`, else a changed list resets to `0`, else leave untouched. -/
def reconcileSelection (visibleTabs : List Tab) (viewModeChanged listChanged : Bool)
    (s : SelectionState) : SelectionState :=
  match s.targetTabIdToSelect with
  | some tid =>
      let newIndex := visibleTabs.findIdx (fun t => t.id == tid)
      { selectedTabIndex :=
          if newIndex < visibleTabs.length then (newIndex : Int) else s.selectedTabIndex
        targetTabIdToSelect := none }
  | none =>
      if viewModeChanged then { s with selectedTabIndex := -1 }
      else if listChanged then { s with selectedTabIndex := 0 }
      else s

/-- Search-box state handled by the command state machine. -/
structure CommandState where
  inputMode : InputMode
  activeCommand : Option CommandDefinition
  query : String
deriving DecidableEq, Repr

/-- The Enter branch of the global key handler in COMMAND_SELECT mode:
autocomplete the selected command's full trigger unless it is already
typed (case-insensitively), in which case activate the command. -/
def enterInCommandSelect (filteredCommands : List CommandDefinition)
    (selectedCommandIndex : Nat) (s : CommandState) : CommandState :=
  match filteredCommands[selectedCommandIndex]? with
  | some cmd =>
      let fullTrigger := "/" ++ cmd.trigger
      if jsToLower s.query ≠ jsToLower fullTrigger then { s with query := fullTrigger }
      else { inputMode := InputMode.COMMAND_ACTIVE, activeCommand := some cmd, query := "" }
  | none => s

/-- `ChromeService.reorderPinnedTabs`: remove `fromId` (first match) from
the registry and re-insert it; for `END` (`toId = none`) right after the
last pinned tab (start of list when none is pinned), otherwise at the
index `findIndex` reports for `toId` - which is `-1` when absent, and
`splice(-1, 0, item)` inserts before the LAST element. -/
def reorderPinnedTabs (l : List ChromeTab) (fromId : Int) (toId : Option Int) :
    List ChromeTab :=
  let fromIndex := l.findIdx (fun t => t.id == fromId)
  if h : fromIndex < l.length then
    let item := l[fromIndex]
    let newTabs := l.take fromIndex ++ l.drop (fromIndex + 1)
    match toId with
    | none =>
        let insertPos := newTabs.length - newTabs.reverse.findIdx (fun t => t.pinned)
        newTabs.take insertPos ++ item :: newTabs.drop insertPos
    | some tid =>
        let toIndex := newTabs.findIdx (fun t => t.id == tid)
        if toIndex < newTabs.length then
          newTabs.take toIndex ++ item :: newTabs.drop toIndex
        else
          newTabs.take (newTabs.length - 1) ++ item :: newTabs.drop (newTabs.length - 1)
  else l

/-- The ids of a registry, in order. -/
def tabIds (l : List ChromeTab) : List Int := l.map (fun t => t.id)

/-- The pinned subsequence of a registry. -/
def pinnedSeq (l : List ChromeTab) : List ChromeTab := l.filter (fun t => t.pinned)

/-- The ids of the pinned subsequence, in order. -/
def pinnedIds (l : List ChromeTab) : List Int := tabIds (pinnedSeq l)

/-- The Alt+ArrowDown branch of the global key handler (LIST mode), with
the selected row being the i-th pinned tab: look the tab up in the pinned
list, and when it is not the last pinned tab, reorder it targeting the
neighbor-after-next (`pinned[i+2]`), or `END` when there is none. -/
def altArrowDown (l : List ChromeTab) (i : Nat) : List ChromeTab :=
  match (pinnedSeq l)[i]? with
  | none => l
  | some currentTab =>
      let pinnedTabs := pinnedSeq l
      let currentIndexInPinned := pinnedTabs.findIdx (fun t => t.id == currentTab.id)
      if currentIndexInPinned < pinnedTabs.length - 1 then
        match pinnedTabs[currentIndexInPinned + 2]? with
        | some targetAfterNeighbor =>
            reorderPinnedTabs l currentTab.id (some targetAfterNeighbor.id)
        | none => reorderPinnedTabs l currentTab.id none
      else l

/-- The simulated browser actions that mutate the live tab registry. -/
inductive BrowserAction
  | close (tabId : Int)
  | activate (tabId : Int)
  | togglePin (tabId : Int)
  | reorder (fromId : Int) (toId : Option Int)

/-- One `ChromeService` action applied to the registry. -/
def applyAction (l : List ChromeTab) : BrowserAction → List ChromeTab
  | BrowserAction.close tabId => l.filter (fun t => t.id ≠ tabId)
  | BrowserAction.activate tabId => l.map (fun t => { t with active := t.id == tabId })
  | BrowserAction.togglePin tabId =>
      l.map (fun t => if t.id == tabId then { t with pinned := !t.pinned } else t)
  | BrowserAction.reorder fromId toId => reorderPinnedTabs l fromId toId

/-- A sequence of simulated browser actions, applied in order. -/
def runActions (init : List ChromeTab) (acts : List BrowserAction) : List ChromeTab :=
  acts.foldl applyAction init

/-- The registry `simulateBrowserStartup` builds from `INITIAL_TABS`
(src/constants): ids 1-15, only tab 1 active, none pinned, audible false. -/
def initialLiveTabs : List ChromeTab :=
  [ { id := 1, title := "Google Gemini API - Developer Guide",
      url := "https://ai.google.dev/gemini-api/docs",
      favIconUrl := "https://www.google.com/favicon.ico",
      active := true, pinned := false, audible := false },
    { id := 2, title := "React - The Library for Web and Native User Interfaces",
      url := "https://react.dev/", favIconUrl := "https://react.dev/favicon.ico",
      active := false, pinned := false, audible := false },
    { id := 3,
      title := "Tailwind CSS - Rapidly build modern websites without ever leaving your HTML",
      url := "https://tailwindcss.com/docs/utility-first",
      favIconUrl := "https://tailwindcss.com/favicon.ico",
      active := false, pinned := false, audible := false },
    { id := 4,
      title := "JIRA - PROJ-1234: Implement new authentication flow for the mobile application [High Priority]",
      url := "https://company.atlassian.net/browse/PROJ-1234", favIconUrl := "",
      active := false, pinned := false, audible := false },
    { id := 5,
      title := "GitHub - facebook/react: The library for web and native user interfaces",
      url := "https://github.com/facebook/react",
      favIconUrl := "https://github.com/favicon.ico",
      active := false, pinned := false, audible := false },
    { id := 6, title := "🎧 lofi hip hop radio - beats to relax/study to",
      url := "https://youtube.com/watch?v=jfKfPfyJRdk",
      favIconUrl := "https://youtube.com/favicon.ico",
      active := false, pinned := false, audible := false },
    { id := 7, title := "Stack Overflow - How do I center a div? - Stack Overflow",
      url := "https://stackoverflow.com/questions/1234/how-do-i-center-a-div",
      favIconUrl := "https://stackoverflow.com/favicon.ico",
      active := false, pinned := false, audible := false },
    { id := 8,
      title := "A very very very very very very very very very very very very very long title that should definitely truncate properly in the ui without breaking the layout",
      url := "https://example.com", favIconUrl := "",
      active := false, pinned := false, audible := false },
    { id := 9, title := "Tab with many tags", url := "https://example.com/tags",
      favIconUrl := "", active := false, pinned := false, audible := false },
    { id := 10, title := "Tab with long tags", url := "https://example.com/longtags",
      favIconUrl := "", active := false, pinned := false, audible := false },
    { id := 11, title := "Docker Hub", url := "https://hub.docker.com",
      favIconUrl := "", active := false, pinned := false, audible := false },
    { id := 12, title := "Figma - Design System v2.0", url := "https://figma.com/file/123456",
      favIconUrl := "https://static.figma.com/app/icon/1/favicon.ico",
      active := false, pinned := false, audible := false },
    { id := 13, title := "MDN Web Docs", url := "https://developer.mozilla.org",
      favIconUrl := "https://developer.mozilla.org/favicon.ico",
      active := false, pinned := false, audible := false },
    { id := 14, title := "Vercel Dashboard", url := "https://vercel.com/dashboard",
      favIconUrl := "https://assets.vercel.com/image/upload/q_auto/front/favicon/vercel/57x57.png",
      active := false, pinned := false, audible := false },
    { id := 15, title := "Notion - Personal Home", url := "https://notion.so",
      favIconUrl := "https://www.notion.so/images/favicon.ico",
      active := false, pinned := false, audible := false } ]

/-- A service state whose only content is a bookmark for the (closed)
Docker Hub tab of the demo data: the ghost-tab case of the bookmark merge. -/
def dockerGhostState : ServiceState :=
  { liveTabs := []
    metadata := []
    bookmarks := [{ url := "https://hub.docker.com", groupId := "default",
                    addedAt := 0, pinned := false }] }

/-- Shorthand used by several witnesses: a small pinned registry entry. -/
def mkPinned (i : Int) : ChromeTab :=
  { id := i, title := "", url := "", favIconUrl := "", active := false,
    pinned := true, audible := false }

/-- A three-tab all-pinned registry used by concrete witnesses. -/
def demoRegistry3 : List ChromeTab := [mkPinned 1, mkPinned 2, mkPinned 3]

/-- A two-tab pinned registry matching the spec scenario pinned = [2, 3]. -/
def demoPinnedPair : List ChromeTab := [mkPinned 2, mkPinned 3]

/-- A merged tab used by concrete witnesses (spec scenario tab 1). -/
def alphaTab : Tab :=
  { id := 1, chromeTabId := some 1, title := "Alpha", url := "https://a.example",
    favIconUrl := "", isActive := true, isPinned := false, pinnedAt := none,
    tags := [], note := "", isBookmarked := false, bookmarkGroupId := none,
    isGroupPinned := false }

/-- A merged tab used by concrete witnesses (spec scenario tab 2, tag "x"). -/
def betaTab : Tab :=
  { id := 2, chromeTabId := some 2, title := "Beta", url := "https://b.example",
    favIconUrl := "", isActive := false, isPinned := false, pinnedAt := none,
    tags := ["x"], note := "", isBookmarked := false, bookmarkGroupId := none,
    isGroupPinned := false }

/-- The MARK palette entry from `AVAILABLE_COMMANDS` (src/constants). -/
def markCommand : CommandDefinition :=
  { id := CommandType.MARK, trigger := "mark", label := "Mark Tab",
    description := "Add a tag to the current tab" }

/-- The single live tab of `snapshotState`. -/
def snapshotTab : ChromeTab :=
  { id := 1, title := "Quick Tab Docs", url := "https://quick.tab/docs",
    favIconUrl := "https://quick.tab/favicon.ico", active := true, pinned := false,
    audible := false }

/-- A service state with one live tab and no stored metadata, used to
witness the opportunistic title/icon snapshot. -/
def snapshotState : ServiceState :=
  { liveTabs := [snapshotTab]
    metadata := []
    bookmarks := [] }

end QuickTab

namespace QuickTab

/-! General list lemmas used to reason about the splice-based reorder. -/

/-- `findIndex` on a list whose prefix fails the predicate and whose next
element satisfies it returns the prefix length. -/
theorem findIdx_append_first {α : Type} (p : α → Bool) (A : List α) (x : α) (B : List α)
    (hA : ∀ a ∈ A, p a = false) (hx : p x = true) :
    (A ++ x :: B).findIdx p = A.length := by
  induction A with
  | nil => simp [List.findIdx_cons, hx]
  | cons a A ih =>
    have ha : p a = false := hA a (by simp)
    simp only [List.cons_append, List.findIdx_cons, ha, cond_false, List.length_cons]
    rw [ih (fun b hb => hA b (by simp [hb]))]

/-- `splice(i, 1)` at the position of a distinguished element removes it. -/
theorem splice_remove {α : Type} (A : List α) (x : α) (B : List α) :
    (A ++ x :: B).take A.length ++ (A ++ x :: B).drop (A.length + 1) = A ++ B := by
  have h2 : (A ++ x :: B).drop (A.length + 1) = B := by
    have hre : A ++ x :: B = (A ++ [x]) ++ B := by simp
    have hl : (A ++ [x]).length = A.length + 1 := by simp
    rw [hre, ← hl, List.drop_left]
  rw [h2, List.take_left]

/-- `splice(i, 0, x)` at a split point inserts the element there. -/
theorem splice_insert {α : Type} (C : List α) (x : α) (E : List α) :
    (C ++ E).take C.length ++ x :: (C ++ E).drop C.length = C ++ x :: E := by
  rw [List.take_left, List.drop_left]

/-- `reorderPinnedTabs` with a target id present after removal: the moved
tab lands immediately before the target. -/
theorem reorder_eq_of_found (A B C D : List ChromeTab) (x z : ChromeTab)
    (hA : ∀ a ∈ A, a.id ≠ x.id)
    (hAB : A ++ B = C ++ z :: D) (hC : ∀ c ∈ C, c.id ≠ z.id) :
    reorderPinnedTabs (A ++ x :: B) x.id (some z.id) = C ++ x :: z :: D := by
  have hfi : (A ++ x :: B).findIdx (fun t => t.id == x.id) = A.length :=
    findIdx_append_first _ A x B (fun a ha => by simp [hA a ha]) (by simp)
  have hlen : A.length < (A ++ x :: B).length := by
    simp [List.length_append]
  have hitem : (A ++ x :: B)[A.length] = x := by
    rw [List.getElem_append_right (le_refl A.length)]
    simp
  have hti : (A ++ B).findIdx (fun t => t.id == z.id) = C.length := by
    rw [hAB]
    exact findIdx_append_first _ C z D (fun c hc => by simp [hC c hc]) (by simp)
  have htlen : C.length < (A ++ B).length := by
    rw [hAB]
    simp [List.length_append]
  simp only [reorderPinnedTabs, hfi]
  rw [dif_pos hlen]
  simp only [hitem, splice_remove]
  rw [hti, if_pos htlen, hAB]
  exact splice_insert C x (z :: D)

/-- The backward loop of the `END` branch: on a list split at the last
pinned element, the computed insertion position is that split point. -/
theorem rev_insert_pos (C D : List ChromeTab)
    (hD : ∀ d ∈ D, d.pinned = false)
    (hC : C = [] ∨ ∃ hne : C ≠ [], (C.getLast hne).pinned = true) :
    (C ++ D).length - (C ++ D).reverse.findIdx (fun t => t.pinned) = C.length := by
  rw [List.reverse_append]
  rcases hC with h | ⟨hne, hp⟩
  · subst h
    simp only [List.nil_append, List.length_nil, List.append_nil, List.reverse_nil,
      List.length_append]
    rw [List.findIdx_eq_length.mpr (fun a ha => hD a (List.mem_reverse.mp ha))]
    simp
  · have hCrev : C.reverse = C.getLast hne :: C.dropLast.reverse := by
      conv_lhs => rw [← List.dropLast_concat_getLast hne]
      simp
    rw [hCrev,
      findIdx_append_first _ D.reverse _ _ (fun a ha => hD a (List.mem_reverse.mp ha)) hp]
    simp [List.length_append]

/-- `reorderPinnedTabs` with `END`: the moved tab lands right after the
last pinned tab of the post-removal list. -/
theorem reorder_eq_of_end (A B C D : List ChromeTab) (x : ChromeTab)
    (hA : ∀ a ∈ A, a.id ≠ x.id)
    (hAB : A ++ B = C ++ D) (hD : ∀ d ∈ D, d.pinned = false)
    (hC : C = [] ∨ ∃ hne : C ≠ [], (C.getLast hne).pinned = true) :
    reorderPinnedTabs (A ++ x :: B) x.id none = C ++ x :: D := by
  have hfi : (A ++ x :: B).findIdx (fun t => t.id == x.id) = A.length :=
    findIdx_append_first _ A x B (fun a ha => by simp [hA a ha]) (by simp)
  have hlen : A.length < (A ++ x :: B).length := by
    simp [List.length_append]
  have hitem : (A ++ x :: B)[A.length] = x := by
    rw [List.getElem_append_right (le_refl A.length)]
    simp
  have hpos : (A ++ B).length - (A ++ B).reverse.findIdx (fun t => t.pinned) = C.length := by
    rw [hAB]
    exact rev_insert_pos C D hD hC
  simp only [reorderPinnedTabs, hfi]
  rw [dif_pos hlen]
  simp only [hitem, splice_remove]
  rw [hpos, hAB]
  exact splice_insert C x D

/-- `reorderPinnedTabs` with an absent target id: `findIndex` misses, and
`splice(-1, 0, item)` inserts before the last element. -/
theorem reorder_eq_of_notfound (A B C : List ChromeTab) (x d : ChromeTab) (tid : Int)
    (hA : ∀ a ∈ A, a.id ≠ x.id)
    (hAB : A ++ B = C ++ [d]) (htid : ∀ t_ ∈ A ++ B, t_.id ≠ tid) :
    reorderPinnedTabs (A ++ x :: B) x.id (some tid) = C ++ x :: [d] := by
  have hfi : (A ++ x :: B).findIdx (fun t => t.id == x.id) = A.length :=
    findIdx_append_first _ A x B (fun a ha => by simp [hA a ha]) (by simp)
  have hlen : A.length < (A ++ x :: B).length := by
    simp [List.length_append]
  have hitem : (A ++ x :: B)[A.length] = x := by
    rw [List.getElem_append_right (le_refl A.length)]
    simp
  have hti : (A ++ B).findIdx (fun t => t.id == tid) = (A ++ B).length :=
    List.findIdx_eq_length.mpr (fun a ha => by simp [htid a ha])
  have hlast : (A ++ B).length - 1 = C.length := by
    rw [hAB]
    simp
  simp only [reorderPinnedTabs, hfi]
  rw [dif_pos hlen]
  simp only [hitem, splice_remove]
  rw [hti, if_neg (lt_irrefl _), hlast, hAB]
  exact splice_insert C x [d]

/-- A list splits around the i-th element of its filtered sublist, with
the filter of the two parts giving the take/drop of the filtered list. -/
theorem filter_split_at {α : Type} (p : α → Bool) (l : List α) (i : Nat)
    (h : i < (l.filter p).length) :
    ∃ A B, l = A ++ (l.filter p)[i] :: B ∧ A.filter p = (l.filter p).take i ∧
      B.filter p = (l.filter p).drop (i + 1) := by
  induction l generalizing i with
  | nil => simp at h
  | cons t l ih =>
    by_cases hp : p t = true
    · cases i with
      | zero =>
        refine ⟨[], l, ?_, ?_, ?_⟩ <;> simp [List.filter_cons, hp]
      | succ j =>
        have hj : j < (l.filter p).length := by
          have hh := h
          simp [List.filter_cons, hp] at hh
          omega
        obtain ⟨A, B, hl, hA, hB⟩ := ih j hj
        refine ⟨t :: A, B, ?_, ?_, ?_⟩
        · simp only [List.filter_cons, hp, if_true]
          simp only [List.getElem_cons_succ]
          rw [List.cons_append, ← hl]
        · simp [List.filter_cons, hp, hA]
        · simp [List.filter_cons, hp, hB]
    · have hp' : p t = false := by simpa using hp
      have hfe : (t :: l).filter p = l.filter p := by simp [List.filter_cons, hp']
      have hi : i < (l.filter p).length := by rw [← hfe]; exact h
      obtain ⟨A, B, hl, hA, hB⟩ := ih i hi
      refine ⟨t :: A, B, ?_, ?_, ?_⟩
      · simp only [hfe]
        rw [List.cons_append, ← hl]
      · simp [List.filter_cons, hp', hA, hfe]
      · simp [hfe, hB]

/-- Every list splits after its last predicate-satisfying element. -/
theorem split_last_pinned {α : Type} (p : α → Bool) (m : List α) :
    ∃ C D, m = C ++ D ∧ (∀ d ∈ D, p d = false) ∧
      (C = [] ∨ ∃ hne : C ≠ [], p (C.getLast hne) = true) ∧
      C.filter p = m.filter p := by
  induction m with
  | nil => exact ⟨[], [], by simp, by simp, Or.inl rfl, by simp⟩
  | cons t m ih =>
    obtain ⟨C, D, hm, hD, hC, hf⟩ := ih
    rcases hC with hCnil | ⟨hne, hp⟩
    · subst hCnil
      by_cases hp : p t = true
      · refine ⟨[t], m, by simp [hm], ?_, Or.inr ⟨by simp, by simpa⟩, ?_⟩
        · intro d hd
          rw [hm] at hd
          exact hD d (by simpa using hd)
        · have hmf : m.filter p = [] := by
            rw [hm]
            simpa using List.filter_eq_nil_iff.mpr (fun a ha => by simp [hD a ha])
          simp [List.filter_cons, hp, hmf]
      · have hp' : p t = false := by simpa using hp
        refine ⟨[], t :: m, by simp, ?_, Or.inl rfl, ?_⟩
        · intro d hd
          rcases List.mem_cons.mp hd with h | h
          · subst h; exact hp'
          · rw [hm] at h
            exact hD d (by simpa using h)
        · simp only [List.filter_nil]
          rw [eq_comm, List.filter_eq_nil_iff]
          intro a ha
          rcases List.mem_cons.mp ha with h | h
          · subst h; simp [hp']
          · rw [hm] at h
            simp [hD a (by simpa using h)]
    · refine ⟨t :: C, D, by simp [hm], hD, Or.inr ⟨by simp, ?_⟩, ?_⟩
      · have hgl : (t :: C).getLast (by simp) = C.getLast hne := by
          cases C with
          | nil => exact absurd rfl hne
          | cons c cs => simp [List.getLast_cons]
        rw [hgl]
        exact hp
      · simp [List.filter_cons, hf]

/-- When the mapped keys are duplicate-free, the key of a distinguished
element differs from the keys of everything on either side of it. -/
theorem nodup_ids_split {α β : Type} (f : α → β) (P Q : List α) (z : α)
    (hnd : ((P ++ z :: Q).map f).Nodup) :
    (∀ a ∈ P, f a ≠ f z) ∧ (∀ b ∈ Q, f b ≠ f z) := by
  rw [List.map_append, List.map_cons] at hnd
  rw [List.nodup_middle, List.nodup_cons] at hnd
  have hz : f z ∉ List.map f P ++ List.map f Q := hnd.1
  constructor
  · intro a ha hfa
    exact hz (List.mem_append_left _ (List.mem_map.mpr ⟨a, ha, hfa⟩))
  · intro b hb hfb
    exact hz (List.mem_append_right _ (List.mem_map.mpr ⟨b, hb, hfb⟩))

/-- A reorder is always a permutation of the registry. -/
theorem reorder_perm (l : List ChromeTab) (fromId : Int) (toId : Option Int) :
    (reorderPinnedTabs l fromId toId).Perm l := by
  by_cases h : l.findIdx (fun t => t.id == fromId) < l.length
  · set n := l.findIdx (fun t => t.id == fromId) with hn
    have hdecomp : l = l.take n ++ l[n] :: l.drop (n + 1) := by
      conv_lhs => rw [← List.take_append_drop n l]
      rw [List.drop_eq_getElem_cons h]
    have hperm : ∀ k : Nat, ∀ x : ChromeTab, ∀ m : List ChromeTab,
        (m.take k ++ x :: m.drop k).Perm (x :: m) := by
      intro k x m
      calc (m.take k ++ x :: m.drop k).Perm (x :: (m.take k ++ m.drop k)) := List.perm_middle
        _ = (x :: m) := by rw [List.take_append_drop]
    have hx : (l[n] :: (l.take n ++ l.drop (n + 1))).Perm l := by
      refine (List.perm_middle.symm).trans ?_
      rw [← hdecomp]
    simp only [reorderPinnedTabs, ← hn]
    rw [dif_pos h]
    cases toId with
    | none => exact (hperm _ _ _).trans hx
    | some tid =>
      split
      · exact (hperm _ _ _).trans hx
      · split <;> exact (hperm _ _ _).trans hx
  · simp only [reorderPinnedTabs]
    rw [dif_neg h]

/-- Filtering an id out of a list that never carries it is the identity. -/
theorem tabIds_filter_ne (s : List ChromeTab) (v : Int) (h : ∀ t_ ∈ s, t_.id ≠ v) :
    (tabIds s).filter (fun j => j != v) = tabIds s := by
  rw [List.filter_eq_self]
  intro a ha
  obtain ⟨t, ht, hta⟩ := List.mem_map.mp ha
  subst hta
  simp [h t ht]

/-- Filtering out the id of the distinguished middle element. -/
theorem ids_filter_middle (P Q : List ChromeTab) (x : ChromeTab)
    (hP : ∀ t_ ∈ P, t_.id ≠ x.id) (hQ : ∀ t_ ∈ Q, t_.id ≠ x.id) :
    (tabIds (P ++ x :: Q)).filter (fun j => j != x.id) = tabIds P ++ tabIds Q := by
  have h1 : tabIds (P ++ x :: Q) = tabIds P ++ x.id :: tabIds Q := by simp [tabIds]
  rw [h1, List.filter_append, List.filter_cons]
  simp only [bne_self_eq_false, Bool.false_eq_true, if_false]
  rw [tabIds_filter_ne P x.id hP, tabIds_filter_ne Q x.id hQ]

/-- Moving one element leaves the id sequence of all other tabs intact. -/
theorem moved_filter_ne (A B U V : List ChromeTab) (x : ChromeTab)
    (hUV : U ++ V = A ++ B)
    (hABx : ∀ t_ ∈ A ++ B, t_.id ≠ x.id) :
    (tabIds (U ++ x :: V)).filter (fun j => j != x.id) =
      (tabIds (A ++ x :: B)).filter (fun j => j != x.id) := by
  have hU : ∀ t_ ∈ U, t_.id ≠ x.id := fun t ht => hABx t (hUV ▸ List.mem_append_left _ ht)
  have hV : ∀ t_ ∈ V, t_.id ≠ x.id := fun t ht => hABx t (hUV ▸ List.mem_append_right _ ht)
  have hA : ∀ t_ ∈ A, t_.id ≠ x.id := fun t ht => hABx t (List.mem_append_left _ ht)
  have hB : ∀ t_ ∈ B, t_.id ≠ x.id := fun t ht => hABx t (List.mem_append_right _ ht)
  rw [ids_filter_middle U V x hU hV, ids_filter_middle A B x hA hB]
  have hids : tabIds (U ++ V) = tabIds (A ++ B) := by rw [hUV]
  simpa [tabIds] using hids

/-- With duplicate-free ids, looking a tab up by the id of the i-th
element finds exactly index i. -/
theorem findIdx_id_self (p : List ChromeTab) (hnd : (tabIds p).Nodup) (i : Nat)
    (hi : i < p.length) :
    p.findIdx (fun t => t.id == p[i].id) = i := by
  have hex : ∃ t_ ∈ p, (t_.id == p[i].id) = true :=
    ⟨p[i], List.getElem_mem hi, by simp⟩
  have hlt := List.findIdx_lt_length_of_exists hex
  have heq : (p[p.findIdx (fun t => t.id == p[i].id)]).id = p[i].id := by
    have h0 := @List.findIdx_getElem _ (fun t => t.id == p[i].id) p hlt
    simpa using h0
  have hndp : (p.map (fun t => t.id)).Nodup := hnd
  have hlt2 : p.findIdx (fun t => t.id == p[i].id) < (p.map (fun t => t.id)).length := by
    simpa using hlt
  have hi2 : i < (p.map (fun t => t.id)).length := by
    simpa using hi
  have hmap : (p.map (fun t => t.id))[p.findIdx (fun t => t.id == p[i].id)] =
      (p.map (fun t => t.id))[i] := by
    rw [List.getElem_map, List.getElem_map]
    exact heq
  exact (hndp.getElem_inj_iff).mp hmap

/-- Reordering a pinned tab to sit right before a later pinned tab: effect
on the pinned subsequence, the unpinned subsequence, and the other ids. -/
theorem reorder_swap_found (l A B C2 D2 : List ChromeTab) (x z : ChromeTab)
    (hnd : (tabIds l).Nodup)
    (hl : l = A ++ x :: B) (hB : B = C2 ++ z :: D2)
    (hxpin : x.pinned = true) (hzpin : z.pinned = true) :
    pinnedSeq (reorderPinnedTabs l x.id (some z.id)) =
        A.filter (fun t => t.pinned) ++ C2.filter (fun t => t.pinned) ++
          x :: z :: D2.filter (fun t => t.pinned) ∧
    (reorderPinnedTabs l x.id (some z.id)).filter (fun t => !t.pinned) =
        l.filter (fun t => !t.pinned) ∧
    (tabIds (reorderPinnedTabs l x.id (some z.id))).filter (fun j => j != x.id) =
        (tabIds l).filter (fun j => j != x.id) := by
  subst hB
  subst hl
  have hnd0 : ((A ++ x :: (C2 ++ z :: D2)).map (fun t => t.id)).Nodup := hnd
  have hsplit := nodup_ids_split (fun t => t.id) A (C2 ++ z :: D2) x hnd0
  have hA1 : ∀ a ∈ A, a.id ≠ x.id := hsplit.1
  have hABx : ∀ t_ ∈ A ++ (C2 ++ z :: D2), t_.id ≠ x.id := by
    intro t ht
    rcases List.mem_append.mp ht with h | h
    · exact hsplit.1 t h
    · exact hsplit.2 t h
  have hnd1 : (((A ++ x :: C2) ++ z :: D2).map (fun t => t.id)).Nodup := by
    have hre : (A ++ x :: C2) ++ z :: D2 = A ++ x :: (C2 ++ z :: D2) := by simp
    rw [hre]
    exact hnd0
  have hCz0 := nodup_ids_split (fun t => t.id) (A ++ x :: C2) D2 z hnd1
  have hCz : ∀ c ∈ A ++ C2, c.id ≠ z.id := by
    intro c hc
    rcases List.mem_append.mp hc with h | h
    · exact hCz0.1 c (List.mem_append_left _ h)
    · exact hCz0.1 c (List.mem_append_right _ (List.mem_cons_of_mem _ h))
  have hAB2 : A ++ (C2 ++ z :: D2) = (A ++ C2) ++ z :: D2 := by simp
  have hres := reorder_eq_of_found A (C2 ++ z :: D2) (A ++ C2) D2 x z hA1 hAB2 hCz
  rw [hres]
  refine ⟨?_, ?_, ?_⟩
  · simp [pinnedSeq, List.filter_append, List.filter_cons, hxpin, hzpin]
  · simp [List.filter_append, List.filter_cons, hxpin, hzpin]
  · exact moved_filter_ne A (C2 ++ z :: D2) (A ++ C2) (z :: D2) x (by simp) hABx

/-- Reordering a pinned tab to `END`: it becomes the last pinned tab, with
the unpinned subsequence and the other ids intact. -/
theorem reorder_swap_end (l A B : List ChromeTab) (x : ChromeTab)
    (hnd : (tabIds l).Nodup)
    (hl : l = A ++ x :: B) (hxpin : x.pinned = true) :
    pinnedSeq (reorderPinnedTabs l x.id none) =
        A.filter (fun t => t.pinned) ++ B.filter (fun t => t.pinned) ++ [x] ∧
    (reorderPinnedTabs l x.id none).filter (fun t => !t.pinned) =
        l.filter (fun t => !t.pinned) ∧
    (tabIds (reorderPinnedTabs l x.id none)).filter (fun j => j != x.id) =
        (tabIds l).filter (fun j => j != x.id) := by
  subst hl
  have hnd0 : ((A ++ x :: B).map (fun t => t.id)).Nodup := hnd
  have hsplit := nodup_ids_split (fun t => t.id) A B x hnd0
  have hA1 : ∀ a ∈ A, a.id ≠ x.id := hsplit.1
  have hABx : ∀ t_ ∈ A ++ B, t_.id ≠ x.id := by
    intro t ht
    rcases List.mem_append.mp ht with h | h
    · exact hsplit.1 t h
    · exact hsplit.2 t h
  obtain ⟨C, D, hCD, hDf, hCl, hCfilt⟩ := split_last_pinned (fun t => t.pinned) (A ++ B)
  have hres := reorder_eq_of_end A B C D x hA1 hCD hDf hCl
  rw [hres]
  have hfD : D.filter (fun t => t.pinned) = [] :=
    List.filter_eq_nil_iff.mpr (fun a ha => by simp [hDf a ha])
  refine ⟨?_, ?_, ?_⟩
  · have e1 : (C ++ x :: D).filter (fun t => t.pinned) =
        (A ++ B).filter (fun t => t.pinned) ++ [x] := by
      simp only [List.filter_append, List.filter_cons, hxpin, if_pos rfl, hfD]
      rw [hCfilt]
      simp [List.filter_append]
    rw [pinnedSeq, e1]
    simp [List.filter_append]
  · have e2 : (C ++ D).filter (fun t => !t.pinned) = (A ++ B).filter (fun t => !t.pinned) := by
      rw [hCD]
    simp only [List.filter_append, List.filter_cons, hxpin] at e2 ⊢
    simpa using e2
  · exact moved_filter_ne A B C D x hCD.symm hABx

/-- After replacing the entry for a present key, lookup finds the new value. -/
theorem find_map_set (url : String) (v : TabMetadata) (m : List (String × TabMetadata))
    (hm : m.any (fun kv => kv.1 == url) = true) :
    ((m.map (fun kv => if kv.1 == url then (kv.1, v) else kv)).find?
        (fun kv => kv.1 == url)).map (fun kv => kv.2) = some v := by
  induction m with
  | nil => simp at hm
  | cons kv m ih =>
    by_cases hk : kv.1 = url
    · simp [hk]
    · have hm' : m.any (fun kv => kv.1 == url) = true := by
        simpa [hk] using hm
      simpa [hk] using ih hm'

/-- Key-lookup after a JS-object assignment finds the assigned value. -/
theorem lookupMeta_setMeta (m : List (String × TabMetadata)) (url : String) (v : TabMetadata) :
    ((setMeta m url v).find? (fun kv => kv.1 == url)).map (fun kv => kv.2) = some v := by
  by_cases ha : m.any (fun kv => kv.1 == url) = true
  · rw [setMeta, if_pos ha]
    exact find_map_set url v m ha
  · rw [setMeta, if_neg ha]
    have hnone : m.find? (fun kv => kv.1 == url) = none := by
      rw [List.find?_eq_none]
      intro x hx hpx
      exact ha (List.any_eq_true.mpr ⟨x, hx, hpx⟩)
    rw [List.find?_append, hnone]
    simp

end QuickTab

namespace QuickTab

set_option maxRecDepth 4000 in
/-- Claim C1: evaluation at the failing input.  The claim (and the spec)
say a bookmarked URL with no live tab yields a ghost UnifiedTab with a
NEGATIVE id derived from the URL.  For the demo's own Docker Hub URL the
32-bit hash is negative, so `-1 * hash` is the POSITIVE id 250663973; the
other claimed ghost fields (isActive, isPinned, title fallback) do hold.
This is the code bug: the sign of the ghost id is not negative for URLs
whose hash is negative. -/
theorem C1_ghost_id_sign_flips :
    jsUrlHash "https://hub.docker.com" = -250663973 ∧
    (getAllBookmarkedTabs dockerGhostState).map (fun t => t.id) = [250663973] ∧
    (∀ t ∈ getAllBookmarkedTabs dockerGhostState,
       0 < t.id ∧ t.isActive = false ∧ t.isPinned = false ∧
       t.title = "https://hub.docker.com") := by
  decide

/-- Claim C2: in plain-search mode (not COMMAND_SELECT, no active MARK
command) with a non-empty query, a tab of the source collection appears
in the filtered list iff the query is a case-insensitive substring of its
title, of its url, or of at least one of its tags. -/
theorem C2_filter_membership_iff (gd : String → String) (lc : String → String → Int)
    (sourceTabs : List Tab) (query : String) (im : InputMode)
    (ac : Option CommandDefinition) (vm : ViewMode) (t : Tab) (ht : t ∈ sourceTabs)
    (hsel : im ≠ InputMode.COMMAND_SELECT)
    (hmark : ¬(im = InputMode.COMMAND_ACTIVE ∧
       ac.map (fun c => c.id) = some CommandType.MARK))
    (hq : query ≠ "") :
    (t ∈ filteredTabs gd lc sourceTabs query im ac vm) ↔
      (jsToLower query <:+: jsToLower t.title ∨
       jsToLower query <:+: jsToLower t.url ∨
       ∃ tag ∈ t.tags, jsToLower query <:+: jsToLower tag) := by
  simp only [filteredTabs, if_neg hmark, if_neg hsel, if_pos hq]
  cases vm <;>
    simp [List.mem_mergeSort, List.mem_filter, queryMatches, jsIncludes, ht,
      List.any_eq_true, or_assoc]

/-- Witness for C2, the spec scenario: tabs Alpha (no tags) and Beta
(tag "x"), query "x": Beta is in the filtered list. -/
theorem C2_filter_membership_iff_witness :
    betaTab ∈ filteredTabs (fun _ => "Other") (fun _ _ => 0) [alphaTab, betaTab] "x"
      InputMode.SEARCH none ViewMode.LIST := by
  refine (C2_filter_membership_iff (fun _ => "Other") (fun _ _ => 0) [alphaTab, betaTab]
    "x" InputMode.SEARCH none ViewMode.LIST betaTab (by simp) (by simp) (by simp)
    (by simp)).mpr ?_
  decide

/-- Claim C3: when a pending target id is set, the reconciliation always
clears it, and when a tab with that id is in the visible list the
selected index becomes that tab's position (the first index holding it). -/
theorem C3_selection_reconciliation (visibleTabs : List Tab) (vmc lc : Bool)
    (s : SelectionState) (tid : Int)
    (h : s.targetTabIdToSelect = some tid) :
    ((reconcileSelection visibleTabs vmc lc s).targetTabIdToSelect = none) ∧
    ((∃ t ∈ visibleTabs, t.id = tid) →
      (reconcileSelection visibleTabs vmc lc s).selectedTabIndex =
          (visibleTabs.findIdx (fun t => t.id == tid) : Int) ∧
        (visibleTabs[visibleTabs.findIdx (fun t => t.id == tid)]?).map (fun t => t.id)
          = some tid) := by
  constructor
  · simp [reconcileSelection, h]
  · intro hex
    have hlt : visibleTabs.findIdx (fun t => t.id == tid) < visibleTabs.length := by
      refine List.findIdx_lt_length_of_exists ?_
      obtain ⟨t, htm, hid⟩ := hex
      exact ⟨t, htm, by simp [hid]⟩
    constructor
    · simp [reconcileSelection, h, hlt]
    · rw [List.getElem?_eq_getElem hlt]
      have hp := @List.findIdx_getElem _ (fun t => t.id == tid) visibleTabs hlt
      simpa using hp

/-- Witness for C3: visible list [Alpha, Beta], pending target id 2: the
target is cleared and the cursor lands on index 1. -/
theorem C3_selection_reconciliation_witness :
    (reconcileSelection [alphaTab, betaTab] false false ⟨0, some 2⟩).targetTabIdToSelect
        = none ∧
    (reconcileSelection [alphaTab, betaTab] false false ⟨0, some 2⟩).selectedTabIndex = 1 := by
  have h := C3_selection_reconciliation [alphaTab, betaTab] false false ⟨0, some 2⟩ 2 rfl
  refine ⟨h.1, ?_⟩
  have h2 := (h.2 ⟨betaTab, by simp, rfl⟩).1
  simpa using h2

/-- Claim C4: for a registry with distinct ids containing a pinned tab
with id `fromId`, `reorderPinnedTabs` (1) keeps the relative order of all
other ids, (2) for a valid numeric target places `fromId` immediately
before `toId`, (3) for `END` puts `fromId` at the tail of the pinned
sequence, and (4) in particular `reorder(fromId, END)` with `fromId`
already the last pinned tab leaves the pinned order unchanged. -/
theorem C4_reorder_invariant (l : List ChromeTab) (fromId : Int) (toId : Option Int)
    (hnd : (tabIds l).Nodup)
    (hfrom : ∃ x ∈ l, x.id = fromId ∧ x.pinned = true)
    (hto : toId = none ∨ ∃ tid, toId = some tid ∧ tid ≠ fromId ∧ tid ∈ tabIds l) :
    ((tabIds (reorderPinnedTabs l fromId toId)).filter (fun j => j != fromId) =
        (tabIds l).filter (fun j => j != fromId)) ∧
    (∀ tid, toId = some tid →
        ∃ i, (tabIds (reorderPinnedTabs l fromId toId))[i]? = some fromId ∧
          (tabIds (reorderPinnedTabs l fromId toId))[i + 1]? = some tid) ∧
    (toId = none →
        pinnedIds (reorderPinnedTabs l fromId toId) =
          (pinnedIds l).filter (fun j => j != fromId) ++ [fromId]) ∧
    (toId = none → (pinnedIds l).getLast? = some fromId →
        pinnedIds (reorderPinnedTabs l fromId toId) = pinnedIds l) := by
  obtain ⟨x, hxl, hxid, hxpin⟩ := hfrom
  subst hxid
  obtain ⟨A, B, rfl⟩ := List.append_of_mem hxl
  have hnd0 : ((A ++ x :: B).map (fun t => t.id)).Nodup := hnd
  have hAB := nodup_ids_split (fun t => t.id) A B x hnd0
  have hA1 : ∀ a ∈ A, a.id ≠ x.id := hAB.1
  have hB1 : ∀ b ∈ B, b.id ≠ x.id := hAB.2
  have hABx : ∀ t_ ∈ A ++ B, t_.id ≠ x.id := by
    intro t ht
    rcases List.mem_append.mp ht with h | h
    · exact hA1 t h
    · exact hB1 t h
  have hndAB : ((A ++ B).map (fun t => t.id)).Nodup := by
    have h0 := hnd0
    rw [List.map_append, List.map_cons, List.nodup_middle, List.nodup_cons] at h0
    rw [List.map_append]
    exact h0.2
  have hAf : ∀ t_ ∈ A.filter (fun t => t.pinned), t_.id ≠ x.id :=
    fun t ht => hA1 t (List.mem_of_mem_filter ht)
  have hBf : ∀ t_ ∈ B.filter (fun t => t.pinned), t_.id ≠ x.id :=
    fun t ht => hB1 t (List.mem_of_mem_filter ht)
  have hpseq : pinnedSeq (A ++ x :: B) =
      A.filter (fun t => t.pinned) ++ x :: B.filter (fun t => t.pinned) := by
    simp [pinnedSeq, List.filter_append, List.filter_cons, hxpin]
  cases toId with
  | none =>
    obtain ⟨C, D, hCD, hDf, hCl, hCfilt⟩ := split_last_pinned (fun t => t.pinned) (A ++ B)
    have hres := reorder_eq_of_end A B C D x hA1 hCD hDf hCl
    rw [hres]
    have hfD : D.filter (fun t => t.pinned) = [] :=
      List.filter_eq_nil_iff.mpr (fun a ha => by simp [hDf a ha])
    have lhs_eq : pinnedSeq (C ++ x :: D) = (A ++ B).filter (fun t => t.pinned) ++ [x] := by
      simp only [pinnedSeq, List.filter_append, List.filter_cons, hxpin, if_pos rfl, hfD]
      rw [hCfilt]
      simp
    have e1 : pinnedIds (C ++ x :: D) =
        tabIds ((A ++ B).filter (fun t => t.pinned)) ++ [x.id] := by
      rw [pinnedIds, lhs_eq]
      simp [tabIds]
    have e2 : (pinnedIds (A ++ x :: B)).filter (fun j => j != x.id) =
        tabIds ((A ++ B).filter (fun t => t.pinned)) := by
      rw [pinnedIds, hpseq, ids_filter_middle _ _ x hAf hBf]
      simp [tabIds, List.filter_append]
    refine ⟨?_, ?_, ?_, ?_⟩
    · exact moved_filter_ne A B C D x hCD.symm hABx
    · intro tid htid
      exact absurd htid (by simp)
    · intro _
      rw [e1, e2]
    · intro _ hlast
      rcases List.eq_nil_or_concat (B.filter (fun t => t.pinned)) with hnil | ⟨l2, b, hcat⟩
      · rw [e1, pinnedIds, hpseq, hnil]
        simp [tabIds, List.filter_append, hnil]
      · exfalso
        rw [pinnedIds, hpseq, hcat, List.concat_eq_append] at hlast
        have hre : A.filter (fun t => t.pinned) ++ x :: (l2 ++ [b]) =
            (A.filter (fun t => t.pinned) ++ x :: l2) ++ [b] := by simp
        rw [hre] at hlast
        have hb : b.id = x.id := by
          have h5 : tabIds ((A.filter (fun t => t.pinned) ++ x :: l2) ++ [b]) =
              tabIds (A.filter (fun t => t.pinned) ++ x :: l2) ++ [b.id] := by
            simp [tabIds]
          rw [h5, List.getLast?_concat] at hlast
          exact (Option.some.injEq _ _).mp hlast
        have hbmem : b ∈ B.filter (fun t => t.pinned) := by
          rw [hcat]
          simp
        exact hBf b hbmem hb
  | some tid =>
    rcases hto with h | ⟨tid2, heq, hne, hmem⟩
    · exact absurd h (by simp)
    have htid2 : tid2 = tid := by
      injection heq with h2
      exact h2.symm
    subst htid2
    obtain ⟨z, hzmem, hzid⟩ := List.mem_map.mp hmem
    subst hzid
    have hzAB : z ∈ A ++ B := by
      rcases List.mem_append.mp hzmem with h | h
      · exact List.mem_append_left _ h
      · rcases List.mem_cons.mp h with h | h
        · exact absurd (h ▸ rfl) hne
        · exact List.mem_append_right _ h
    obtain ⟨C, D, hCD⟩ := List.append_of_mem hzAB
    have hCz : ∀ c ∈ C, c.id ≠ z.id :=
      (nodup_ids_split (fun t => t.id) C D z (by rw [← hCD]; exact hndAB)).1
    have hres := reorder_eq_of_found A B C D x z hA1 hCD hCz
    rw [hres]
    refine ⟨?_, ?_, ?_, ?_⟩
    · exact moved_filter_ne A B C (z :: D) x hCD.symm hABx
    · intro tid3 htid3
      have h3 : tid3 = z.id := by
        injection htid3 with h4
        exact h4.symm
      subst h3
      have hids : tabIds (C ++ x :: z :: D) = tabIds C ++ x.id :: z.id :: tabIds D := by
        simp [tabIds]
      have hlenC : (tabIds C).length = C.length := by simp [tabIds]
      refine ⟨C.length, ?_, ?_⟩
      · rw [hids, List.getElem?_append_right (le_of_eq hlenC), hlenC]
        simp
      · rw [hids, List.getElem?_append_right (by omega : (tabIds C).length ≤ C.length + 1),
          hlenC]
        simp
    · intro h3
      exact absurd h3 (by simp)
    · intro h3
      exact absurd h3 (by simp)

/-- Witness for C4, the spec scenario: pinned registry [2, 3],
`reorder(3, END)` leaves the pinned order unchanged. -/
theorem C4_reorder_invariant_witness :
    ((tabIds demoPinnedPair).Nodup ∧ (pinnedIds demoPinnedPair).getLast? = some 3) ∧
    pinnedIds (reorderPinnedTabs demoPinnedPair 3 none) = pinnedIds demoPinnedPair := by
  have h := C4_reorder_invariant demoPinnedPair 3 none (by decide) (by decide) (Or.inl rfl)
  exact ⟨⟨by decide, by decide⟩, h.2.2.2 rfl (by decide)⟩

end QuickTab

namespace QuickTab

/-- Counterexample for C5: closing the active tab is a reachable action
that leaves the demo's 15-tab registry with 14 tabs and ZERO active tabs,
refuting "exactly one live tab has isActive = true whenever at least one
live tab exists". -/
theorem C5_close_active_counterexample :
    (runActions initialLiveTabs [BrowserAction.close 1]).length = 14 ∧
    (runActions initialLiveTabs [BrowserAction.close 1]).countP (fun t => t.active) = 0 := by
  decide

/-- Claim C5 as amended: in every state of the live tab registry reachable
from the startup registry by the simulated browser actions, AT MOST one
live tab has isActive = true (closing the active tab, or activating an
absent id, can leave zero). -/
theorem C5_at_most_one_active (acts : List BrowserAction) :
    (runActions initialLiveTabs acts).countP (fun t => t.active) ≤ 1 := by
  suffices hInv : ∀ (as : List BrowserAction) (l : List ChromeTab),
      (tabIds l).Nodup → l.countP (fun t => t.active) ≤ 1 →
      ((tabIds (runActions l as)).Nodup ∧
        (runActions l as).countP (fun t => t.active) ≤ 1) by
    exact (hInv acts initialLiveTabs (by decide) (by decide)).2
  intro as
  induction as with
  | nil =>
    intro l h1 h2
    exact ⟨h1, h2⟩
  | cons a as ih =>
    intro l h1 h2
    have hstep : (tabIds (applyAction l a)).Nodup ∧
        (applyAction l a).countP (fun t => t.active) ≤ 1 := by
      have h1m : (l.map (fun t => t.id)).Nodup := h1
      cases a with
      | close tabId =>
        constructor
        · exact ((List.filter_sublist l).map (fun t => t.id)).nodup h1m
        · exact le_trans ((List.filter_sublist l).countP_le _) h2
      | activate tabId =>
        constructor
        · have hids : tabIds (l.map (fun t => { t with active := t.id == tabId })) =
              tabIds l := by
            simp only [tabIds, List.map_map]
            rfl
          rw [applyAction, hids]
          exact h1
        · rw [applyAction, List.countP_map]
          have he : ((fun t : ChromeTab => t.active) ∘
              (fun t => { t with active := t.id == tabId })) =
              (fun t : ChromeTab => t.id == tabId) := rfl
          rw [he]
          have h3 : List.count tabId (tabIds l) ≤ 1 :=
            List.nodup_iff_count_le_one.mp h1 tabId
          have h4 : List.countP (fun t : ChromeTab => t.id == tabId) l =
              List.count tabId (tabIds l) := by
            rw [List.count_eq_countP, tabIds, List.countP_map]
            rfl
          omega
      | togglePin tabId =>
        constructor
        · have hids : tabIds (l.map
              (fun t => if t.id == tabId then { t with pinned := !t.pinned } else t)) =
              tabIds l := by
            simp only [tabIds, List.map_map]
            refine List.map_congr_left ?_
            intro t ht
            by_cases h : (t.id == tabId) = true <;> simp [Function.comp, h]
          rw [applyAction, hids]
          exact h1
        · rw [applyAction, List.countP_map]
          have he : List.countP ((fun t : ChromeTab => t.active) ∘
              (fun t => if t.id == tabId then { t with pinned := !t.pinned } else t)) l =
              List.countP (fun t : ChromeTab => t.active) l := by
            refine List.countP_congr ?_
            intro t ht
            by_cases h : (t.id == tabId) = true <;> simp [Function.comp, h]
          rw [he]
          exact h2
      | reorder fromId toId =>
        have hperm := reorder_perm l fromId toId
        constructor
        · exact ((hperm.map (fun t => t.id)).nodup_iff).mpr h1m
        · have h6 : List.countP (fun t : ChromeTab => t.active)
              (reorderPinnedTabs l fromId toId) =
              List.countP (fun t => t.active) l := hperm.countP_eq _
          exact le_trans (le_of_eq h6) h2
    have h5 := ih (applyAction l a) hstep.1 hstep.2
    simpa [runActions] using h5

set_option maxRecDepth 2000 in
/-- Claim C6: evaluation at the failing input.  The claim (and the spec)
say renaming a tag to an existing name merges by deleting the old name,
leaving the tag set duplicate-free.  `ChromeService.renameTag` has no
collision check: starting from tags ["a", "b"], renaming "a" to "b"
yields ["b", "b"], a duplicate (the other App snapshot's
`handleRenameTag` does implement the merge).  This is the code bug. -/
theorem C6_renameTag_collision_duplicates :
    (getMetadata (renameTag (addTag (addTag ⟨[], [], []⟩ "u" "a") "u" "b") "u" "a" "b")
        "u").tags = ["b", "b"] ∧
    ¬ ((getMetadata (renameTag (addTag (addTag ⟨[], [], []⟩ "u" "a") "u" "b") "u" "a" "b")
        "u").tags).Nodup := by
  decide

/-- Claim C7: on Enter in COMMAND_SELECT with a selected palette entry,
if the query differs case-insensitively from "/" + trigger the query is
set to the full trigger and the mode stays COMMAND_SELECT; if it matches,
the mode becomes COMMAND_ACTIVE with that command active and the query
cleared. -/
theorem C7_command_select_enter (cmds : List CommandDefinition) (i : Nat)
    (s : CommandState) (cmd : CommandDefinition) (hc : cmds[i]? = some cmd)
    (hm : s.inputMode = InputMode.COMMAND_SELECT) :
    (jsToLower s.query ≠ jsToLower ("/" ++ cmd.trigger) →
      enterInCommandSelect cmds i s =
        { inputMode := InputMode.COMMAND_SELECT, activeCommand := s.activeCommand,
          query := "/" ++ cmd.trigger }) ∧
    (jsToLower s.query = jsToLower ("/" ++ cmd.trigger) →
      enterInCommandSelect cmds i s =
        { inputMode := InputMode.COMMAND_ACTIVE, activeCommand := some cmd,
          query := "" }) := by
  constructor
  · intro hne
    simp only [enterInCommandSelect, hc, if_pos hne]
    cases s
    simp at hm
    simp [hm]
  · intro heq
    simp [enterInCommandSelect, hc, heq]

/-- Witness for C7, the spec scenario: with "mark" selected, Enter on
query "/m" autocompletes to "/mark" staying in COMMAND_SELECT; Enter on
"/mark" activates MARK and clears the query. -/
theorem C7_command_select_enter_witness :
    enterInCommandSelect [markCommand] 0
        ⟨InputMode.COMMAND_SELECT, none, "/m"⟩ =
      ⟨InputMode.COMMAND_SELECT, none, "/mark"⟩ ∧
    enterInCommandSelect [markCommand] 0
        ⟨InputMode.COMMAND_SELECT, none, "/mark"⟩ =
      ⟨InputMode.COMMAND_ACTIVE, some markCommand, ""⟩ := by
  constructor
  · exact (C7_command_select_enter [markCommand] 0
      ⟨InputMode.COMMAND_SELECT, none, "/m"⟩ markCommand rfl rfl).1 (by decide)
  · exact (C7_command_select_enter [markCommand] 0
      ⟨InputMode.COMMAND_SELECT, none, "/mark"⟩ markCommand rfl rfl).2 (by decide)

/-- Claim C8: Alt+ArrowDown on the i-th pinned tab (not the last one)
exchanges it with its immediate pinned successor, leaving the rest of the
pinned order, the unpinned subsequence, and the relative order of all
other tabs unchanged; the computation targets pinned index i+2, or END
when no such element exists. -/
theorem C8_alt_arrow_down_swap (l : List ChromeTab) (i : Nat)
    (hnd : (tabIds l).Nodup) (h : i + 1 < (pinnedIds l).length) :
    pinnedIds (altArrowDown l i) =
      (pinnedIds l).take i ++
        [(pinnedIds l).getD (i + 1) 0, (pinnedIds l).getD i 0] ++
        (pinnedIds l).drop (i + 2) ∧
    tabIds ((altArrowDown l i).filter (fun t => !t.pinned)) =
      tabIds (l.filter (fun t => !t.pinned)) ∧
    (tabIds (altArrowDown l i)).filter (fun j => j != (pinnedIds l).getD i 0) =
      (tabIds l).filter (fun j => j != (pinnedIds l).getD i 0) := by
  simp only [pinnedIds, pinnedSeq, tabIds] at h ⊢
  have hp : i + 1 < (l.filter (fun t => t.pinned)).length := by simpa using h
  have hip : i < (l.filter (fun t => t.pinned)).length := by omega
  have hi1 : i + 1 < (l.filter (fun t => t.pinned)).length := hp
  have hnd0 : (l.map (fun t => t.id)).Nodup := hnd
  have hndp : ((l.filter (fun t => t.pinned)).map (fun t => t.id)).Nodup :=
    ((List.filter_sublist (p := fun t => t.pinned) l).map (fun t => t.id)).nodup hnd0
  have hfind : (l.filter (fun t => t.pinned)).findIdx
      (fun t => t.id == ((l.filter (fun t => t.pinned))[i]).id) = i :=
    findIdx_id_self (l.filter (fun t => t.pinned)) hndp i hip
  have hxpin : ((l.filter (fun t => t.pinned))[i]).pinned = true :=
    (List.mem_filter.mp (List.getElem_mem hip)).2
  have hsome : (l.filter (fun t => t.pinned))[i]? =
      some ((l.filter (fun t => t.pinned))[i]) := List.getElem?_eq_getElem hip
  have hcond : i < (l.filter (fun t => t.pinned)).length - 1 := by omega
  have hgetDi : ((l.filter (fun t => t.pinned)).map (fun t => t.id)).getD i 0 =
      ((l.filter (fun t => t.pinned))[i]).id := by
    rw [List.getD_eq_getElem _ _ (by simpa using hip)]
    simp
  have hgetDi1 : ((l.filter (fun t => t.pinned)).map (fun t => t.id)).getD (i + 1) 0 =
      ((l.filter (fun t => t.pinned))[i + 1]).id := by
    rw [List.getD_eq_getElem _ _ (by simpa using hi1)]
    simp
  obtain ⟨A, B, hl, hAf2, hBf2⟩ := filter_split_at (fun t => t.pinned) l i hip
  rcases h2 : (l.filter (fun t => t.pinned))[i + 2]? with _ | z
  · have hlen2 : (l.filter (fun t => t.pinned)).length = i + 2 := by
      have hle := List.getElem?_eq_none_iff.mp h2
      omega
    have hred : altArrowDown l i =
        reorderPinnedTabs l ((l.filter (fun t => t.pinned))[i]).id none := by
      simp only [altArrowDown, pinnedSeq, hsome, hfind, if_pos hcond, h2]
    have hcore := reorder_swap_end l A B ((l.filter (fun t => t.pinned))[i]) hnd hl hxpin
    have hcore1 := hcore.1
    simp only [pinnedSeq] at hcore1
    have hdrop1 : (l.filter (fun t => t.pinned)).drop (i + 1) =
        [(l.filter (fun t => t.pinned))[i + 1]] := by
      rw [List.drop_eq_getElem_cons hi1, List.drop_eq_nil_of_le (by omega)]
    have hdrop2 : (l.filter (fun t => t.pinned)).drop (i + 2) = [] :=
      List.drop_eq_nil_of_le (by omega)
    have hBfv : B.filter (fun t => t.pinned) = [(l.filter (fun t => t.pinned))[i + 1]] := by
      rw [hBf2]
      exact hdrop1
    refine ⟨?_, ?_, ?_⟩
    · rw [hred, hcore1, hAf2, hBfv, hgetDi, hgetDi1]
      rw [← List.map_drop, hdrop2]
      simp [← List.map_take]
    · rw [hred]
      have h7 := hcore.2.1
      rw [h7]
    · rw [hred, hgetDi]
      have h8 := hcore.2.2
      simpa [tabIds] using h8
  · obtain ⟨hzlt, hzeq⟩ := List.getElem?_eq_some_iff.mp h2
    have hred : altArrowDown l i =
        reorderPinnedTabs l ((l.filter (fun t => t.pinned))[i]).id (some z.id) := by
      simp only [altArrowDown, pinnedSeq, hsome, hfind, if_pos hcond, h2]
    have hzpin : z.pinned = true := by
      rw [← hzeq]
      exact (List.mem_filter.mp (List.getElem_mem hzlt)).2
    have hB1len : 1 < (B.filter (fun t => t.pinned)).length := by
      rw [hBf2]
      simp only [List.length_drop]
      omega
    obtain ⟨C2, D2, hBdec, hC2f, hD2f⟩ := filter_split_at (fun t => t.pinned) B 1 hB1len
    have hdlen : 1 < ((l.filter (fun t => t.pinned)).drop (i + 1)).length := by
      rw [← hBf2]
      exact hB1len
    have hBelem : (B.filter (fun t => t.pinned))[1] = z := by
      have e1 : (B.filter (fun t => t.pinned))[1] =
          ((l.filter (fun t => t.pinned)).drop (i + 1))[1] := List.getElem_of_eq hBf2 _
      rw [e1, List.getElem_drop]
      rw [← hzeq]
    rw [hBelem] at hBdec
    have hcore := reorder_swap_found l A B C2 D2 ((l.filter (fun t => t.pinned))[i]) z
      hnd hl hBdec hxpin hzpin
    have hcore1 := hcore.1
    simp only [pinnedSeq] at hcore1
    have hdropcons : (l.filter (fun t => t.pinned)).drop (i + 1) =
        ((l.filter (fun t => t.pinned))[i + 1]) ::
          (l.filter (fun t => t.pinned)).drop (i + 2) := List.drop_eq_getElem_cons hi1
    have hdropcons2 : (l.filter (fun t => t.pinned)).drop (i + 2) =
        z :: (l.filter (fun t => t.pinned)).drop (i + 3) := by
      rw [List.drop_eq_getElem_cons hzlt, hzeq]
    have hC2v : C2.filter (fun t => t.pinned) =
        [(l.filter (fun t => t.pinned))[i + 1]] := by
      rw [hC2f, hBf2]
      rw [hdropcons]
      rfl
    have hD2v : D2.filter (fun t => t.pinned) = (l.filter (fun t => t.pinned)).drop (i + 3) := by
      rw [hD2f, hBf2, List.drop_drop]
    refine ⟨?_, ?_, ?_⟩
    · rw [hred, hcore1, hAf2, hC2v, hD2v, hgetDi, hgetDi1]
      rw [← List.map_drop, hdropcons2]
      simp [← List.map_take]
    · rw [hred]
      have h7 := hcore.2.1
      rw [h7]
    · rw [hred, hgetDi]
      have h8 := hcore.2.2
      simpa [tabIds] using h8

/-- Witness for C8: in the pinned registry [1, 2, 3], Alt+ArrowDown on
pinned index 0 produces the pinned order [2, 1, 3]. -/
theorem C8_alt_arrow_down_swap_witness :
    ((tabIds demoRegistry3).Nodup ∧ 0 + 1 < (pinnedIds demoRegistry3).length) ∧
    pinnedIds (altArrowDown demoRegistry3 0) =
      (pinnedIds demoRegistry3).take 0 ++
        [(pinnedIds demoRegistry3).getD (0 + 1) 0, (pinnedIds demoRegistry3).getD 0 0] ++
        (pinnedIds demoRegistry3).drop (0 + 2) := by
  have h := C8_alt_arrow_down_swap demoRegistry3 0 (by decide) (by decide)
  exact ⟨⟨by decide, by decide⟩, h.1⟩

end QuickTab

namespace QuickTab

/-- Counterexample for C9: the claim says the call "does not leave the
order unchanged".  In the registry [1, 2, 3], with fromId 2 present and
target id 99 absent, `splice(-1, 0, item)` reinserts tab 2 exactly where
it was: the registry is unchanged. -/
theorem C9_unchanged_order_counterexample :
    (∃ x ∈ demoRegistry3, x.id = 2) ∧
    (∀ t_ ∈ demoRegistry3.filter (fun t => t.id != 2), t_.id ≠ 99) ∧
    reorderPinnedTabs demoRegistry3 2 (some 99) = demoRegistry3 := by
  decide

/-- Claim C9 as amended: with fromId present, a target id that is neither
END nor present after removal, and at least two tabs, `findIndex` misses
and `splice(-1, 0, item)` reinserts the moved tab immediately before the
LAST element of the post-removal registry list (which coincides with the
original order exactly when the moved tab already sat there). -/
theorem C9_splice_before_last (l : List ChromeTab) (fromId tid : Int)
    (hnd : (tabIds l).Nodup)
    (hfrom : ∃ x ∈ l, x.id = fromId)
    (htid : tid ∉ tabIds l)
    (hlen : 2 ≤ l.length) :
    ∃ x C d, x ∈ l ∧ x.id = fromId ∧
      l.filter (fun t => t.id != fromId) = C ++ [d] ∧
      reorderPinnedTabs l fromId (some tid) = C ++ [x, d] := by
  obtain ⟨x, hxl, hxid⟩ := hfrom
  subst hxid
  obtain ⟨A, B, rfl⟩ := List.append_of_mem hxl
  have hnd0 : ((A ++ x :: B).map (fun t => t.id)).Nodup := hnd
  have hsplit := nodup_ids_split (fun t => t.id) A B x hnd0
  have hA1 : ∀ a ∈ A, a.id ≠ x.id := hsplit.1
  have hB1 : ∀ b ∈ B, b.id ≠ x.id := hsplit.2
  have hfilter : (A ++ x :: B).filter (fun t => t.id != x.id) = A ++ B := by
    rw [List.filter_append, List.filter_cons]
    simp only [bne_self_eq_false, Bool.false_eq_true, if_false]
    rw [List.filter_eq_self.mpr (fun a ha => by simp [hA1 a ha]),
      List.filter_eq_self.mpr (fun b hb => by simp [hB1 b hb])]
  have hlenAB : 1 ≤ (A ++ B).length := by
    have h3 : (A ++ x :: B).length = A.length + B.length + 1 := by
      simp only [List.length_append, List.length_cons]
      omega
    have h4 : (A ++ B).length = A.length + B.length := by
      simp only [List.length_append]
    omega
  rcases List.eq_nil_or_concat (A ++ B) with hc | ⟨C, d, hcat⟩
  · rw [hc] at hlenAB
    simp at hlenAB
  · have hcat2 : A ++ B = C ++ [d] := by
      rw [hcat, List.concat_eq_append]
    have htidAB : ∀ t_ ∈ A ++ B, t_.id ≠ tid := by
      intro t ht hid
      apply htid
      refine List.mem_map.mpr ⟨t, ?_, hid⟩
      rcases List.mem_append.mp ht with h | h
      · exact List.mem_append_left _ h
      · exact List.mem_append_right _ (List.mem_cons_of_mem _ h)
    refine ⟨x, C, d, hxl, rfl, ?_, ?_⟩
    · rw [hfilter]
      exact hcat2
    · exact reorder_eq_of_notfound A B C x d tid hA1 hcat2 htidAB

/-- Witness for C9: registry [1, 2, 3], fromId 1, absent target 99: tab 1
is reinserted before the last element, giving [2, 1, 3]. -/
theorem C9_splice_before_last_witness :
    ((tabIds demoRegistry3).Nodup ∧ (∃ x ∈ demoRegistry3, x.id = 1) ∧
      (99 : Int) ∉ tabIds demoRegistry3 ∧ 2 ≤ demoRegistry3.length) ∧
    (∃ x C d, x ∈ demoRegistry3 ∧ x.id = 1 ∧
      demoRegistry3.filter (fun t => t.id != 1) = C ++ [d] ∧
      reorderPinnedTabs demoRegistry3 1 (some 99) = C ++ [x, d]) :=
  ⟨⟨by decide, by decide, by decide, by decide⟩,
    C9_splice_before_last demoRegistry3 1 99 (by decide) (by decide) (by decide) (by decide)⟩

/-- Claim C10: `removeTag` / `renameTag` on a URL with no stored metadata
is not a store no-op: each creates a fresh record with empty tags and
empty note, and with savedTitle / savedFavIconUrl snapshotted from the
first live tab carrying that URL when one is open (absent otherwise). -/
theorem C10_fresh_metadata_record (st : ServiceState) (url tag oldTag newTag : String)
    (h : lookupMeta st url = none) :
    lookupMeta (removeTag st url tag) url = some
      { tags := [], note := ""
        savedTitle := (st.liveTabs.find? (fun t => t.url == url)).map (fun t => t.title)
        savedFavIconUrl :=
          (st.liveTabs.find? (fun t => t.url == url)).map (fun t => t.favIconUrl) } ∧
    lookupMeta (renameTag st url oldTag newTag) url = some
      { tags := [], note := ""
        savedTitle := (st.liveTabs.find? (fun t => t.url == url)).map (fun t => t.title)
        savedFavIconUrl :=
          (st.liveTabs.find? (fun t => t.url == url)).map (fun t => t.favIconUrl) } := by
  have hg : getMetadata st url =
      { tags := [], note := "", savedTitle := none, savedFavIconUrl := none } := by
    unfold getMetadata
    rw [h]
    rfl
  constructor
  · simp only [removeTag, updateMetadata, hg]
    cases hfind : st.liveTabs.find? (fun t => t.url == url) <;>
      simp [lookupMeta, lookupMeta_setMeta, hfind]
  · simp only [renameTag, updateMetadata, hg]
    cases hfind : st.liveTabs.find? (fun t => t.url == url) <;>
      simp [lookupMeta, lookupMeta_setMeta, hfind]

/-- Witness for C10: a state with one live tab at the URL and no stored
metadata: `removeTag` creates the record with the snapshotted title/icon. -/
theorem C10_fresh_metadata_record_witness :
    lookupMeta snapshotState "https://quick.tab/docs" = none ∧
    lookupMeta (removeTag snapshotState "https://quick.tab/docs" "x")
        "https://quick.tab/docs" =
      some { tags := [], note := "", savedTitle := some "Quick Tab Docs",
             savedFavIconUrl := some "https://quick.tab/favicon.ico" } := by
  have h := (C10_fresh_metadata_record snapshotState "https://quick.tab/docs" "x" "a" "b"
    rfl).1
  exact ⟨rfl, h⟩

end QuickTab
